import Mathlib

/-
Shallow embedding of src/grab-actions/src-tauri/src/main.rs (the "grab"
capture-registry backend) and proofs about its commands.

Modelling conventions:
* Filesystem paths are component lists (`Path := List String`); `PathBuf::join`
  with a slash-separated string appends the string split on the slash character.
* File contents are modelled at the JSON level: a file stores `Option Json`,
  where `none` stands for bytes that are not valid JSON text.  serde's
  derived deserializers are embedded as explicit `Json → Option _` parsers.
* JSON numbers are modelled as integers; no claim under consideration depends
  on non-integral numeric values.
* Rust's `str::to_lowercase` is modelled by ASCII lowercasing (`Char.toLower`);
  all extension literals compared against are ASCII.
* OS-level failures that the model does not represent (permission errors,
  stat failures) are absent: `create_dir_all`, `fs::write` and `remove_file`
  are total on the model state.  `dirs::home_dir()` stays fallible.
* Stateful commands are state-passing functions `FS → Except String α × FS`:
  the second component is the filesystem after the call, also on error paths
  (Rust mutations before an early return persist).
-/

namespace Grab

/-- JSON values (numbers as integers). -/
inductive Json where
  | null
  | bool (b : Bool)
  | num (n : Int)
  | str (s : String)
  | arr (elems : List Json)
  | obj (fields : List (String × Json))

/-- `dimensions` detail record; `width`/`height` are `f64` in the source,
modelled as integers (no claim inspects their numeric value). -/
structure Dimensions where
  width : Int
  height : Int
deriving DecidableEq, Repr

/-- `MetadataDetails` struct: every field is optional. -/
structure MetadataDetails where
  dimensions : Option Dimensions
  application_name : Option String
  window_title : Option String
  clipboard_type : Option String
deriving DecidableEq, Repr

/-- `CaptureMetadata` struct (sidecar record).  External JSON field names are
camelCase for `file_extension`/`file_size`, and `capture_type` is serialized
as `type`. -/
structure CaptureMetadata where
  id : String
  timestamp : String
  capture_type : String
  filename : String
  file_extension : String
  file_size : Int
  metadata : MetadataDetails
deriving DecidableEq, Repr

/-- `CaptureFile` struct: one listing entry. -/
structure CaptureFile where
  name : String
  path : String
  modified : Nat
  size : Nat
  capture_type : String
  has_metadata : Bool
  metadata : Option CaptureMetadata
deriving DecidableEq, Repr

/-- `AppSettings` struct. -/
structure AppSettings where
  capture_folder : String
  default_capture_folder : String
deriving DecidableEq, Repr

/-- Field lookup in a JSON object (first binding wins). -/
def Json.getField (j : Json) (k : String) : Option Json :=
  match j with
  | .obj fields => fields.lookup k
  | _ => none

def Json.asStr : Json → Option String
  | .str s => some s
  | _ => none

def Json.asInt : Json → Option Int
  | .num n => some n
  | _ => none

/-- serde semantics of an `Option<T>` field: missing or `null` parses to
`none`; a present non-null value must parse as `T` or the whole record
fails. -/
def parseOpt {α : Type} (f : Option Json) (p : Json → Option α) : Option (Option α) :=
  match f with
  | none => some none
  | some .null => some none
  | some j => (p j).map some

/-- Derived deserializer for `Dimensions`. -/
def parseDimensions (j : Json) : Option Dimensions :=
  match j with
  | .obj _ => do
    let w ← (j.getField "width").bind Json.asInt
    let h ← (j.getField "height").bind Json.asInt
    pure ⟨w, h⟩
  | _ => none

/-- Derived deserializer for `MetadataDetails`. -/
def parseMetadataDetails (j : Json) : Option MetadataDetails :=
  match j with
  | .obj _ => do
    let d ← parseOpt (j.getField "dimensions") parseDimensions
    let a ← parseOpt (j.getField "applicationName") Json.asStr
    let w ← parseOpt (j.getField "windowTitle") Json.asStr
    let c ← parseOpt (j.getField "clipboardType") Json.asStr
    pure ⟨d, a, w, c⟩
  | _ => none

/-- Derived deserializer for `CaptureMetadata`: the six scalar fields and the
nested `metadata` object are all required. -/
def parseCaptureMetadata (j : Json) : Option CaptureMetadata :=
  match j with
  | .obj _ => do
    let i ← (j.getField "id").bind Json.asStr
    let ts ← (j.getField "timestamp").bind Json.asStr
    let ty ← (j.getField "type").bind Json.asStr
    let fn ← (j.getField "filename").bind Json.asStr
    let fe ← (j.getField "fileExtension").bind Json.asStr
    let fsz ← (j.getField "fileSize").bind Json.asInt
    let md ← (j.getField "metadata").bind parseMetadataDetails
    pure ⟨i, ts, ty, fn, fe, fsz, md⟩
  | _ => none

/-- Derived deserializer for `AppSettings`. -/
def parseAppSettings (j : Json) : Option AppSettings :=
  match j with
  | .obj _ => do
    let c ← (j.getField "capture_folder").bind Json.asStr
    let d ← (j.getField "default_capture_folder").bind Json.asStr
    pure ⟨c, d⟩
  | _ => none

/-- Serializer for `AppSettings` (`serde_json::to_string_pretty`, at the JSON
value level). -/
def settingsToJson (s : AppSettings) : Json :=
  .obj [("capture_folder", .str s.capture_folder),
        ("default_capture_folder", .str s.default_capture_folder)]

/-- `str::ends_with` (suffix match, at the character level). -/
def strEndsWith (s pat : String) : Bool := pat.data.isSuffixOf s.data

/-- `str::starts_with`. -/
def strStartsWith (s pat : String) : Bool := pat.data.isPrefixOf s.data

/-- Split a character list at every occurrence of `sep`. -/
def splitChars (sep : Char) : List Char → List (List Char)
  | [] => [[]]
  | c :: cs =>
    let r := splitChars sep cs
    if c = sep then [] :: r
    else (c :: r.headD []) :: r.tail

/-- A path is its list of components. -/
abbrev Path := List String

/-- `PathBuf::from` on a Rust string: the slash-separated components. -/
def pathOfString (s : String) : Path := (splitChars '/' s.data).map String.mk

/-- `Path::to_string_lossy` (paths in the model are valid UTF-8). -/
def pathToString (p : Path) : String := String.intercalate "/" p

/-- Stat data plus parsed-content view of one regular file. -/
structure FileInfo where
  modified : Nat
  size : Nat
  content : Option Json

/-- Filesystem state: the home directory as reported by `dirs::home_dir()`,
the set of existing directories, and the existing regular files. -/
structure FS where
  home : Option Path
  dirList : List Path
  fileList : List (Path × FileInfo)

def FS.isDir (fs : FS) (p : Path) : Bool := fs.dirList.contains p

def FS.getFile (fs : FS) (p : Path) : Option FileInfo := fs.fileList.lookup p

def FS.isFile (fs : FS) (p : Path) : Bool := (fs.getFile p).isSome

/-- `Path::exists`. -/
def FS.pathExists (fs : FS) (p : Path) : Bool := fs.isDir p || fs.isFile p

/-- `fs::create_dir_all` (total in the model). -/
def FS.mkDir (fs : FS) (p : Path) : FS := ⟨fs.home, p :: fs.dirList, fs.fileList⟩

/-- `fs::write` (total in the model; a written file shadows any previous one). -/
def FS.writeFile (fs : FS) (p : Path) (c : Option Json) : FS :=
  ⟨fs.home, fs.dirList, (p, ⟨0, 0, c⟩) :: fs.fileList⟩

/-- `fs::remove_file`: fails when no regular file is at `p`; the state update
removes every binding of `p`. -/
def FS.removeFile (fs : FS) (p : Path) : Except String Unit × FS :=
  if fs.isFile p then
    (.ok (), ⟨fs.home, fs.dirList, fs.fileList.filter (fun q => q.1 ≠ p)⟩)
  else (.error "No such file", fs)

/-- Leftover components of `p` below directory `d` (`none` when `p` is not
below `d`). -/
def remComps : Path → Path → Option (List String)
  | [], p => some p
  | _ :: _, [] => none
  | a :: d, b :: p => if a = b then remComps d p else none

/-- The name of `p` when `p` is a direct child of directory `d`. -/
def childName (d p : Path) : Option String :=
  match remComps d p with
  | some [n] => some n
  | _ => none

/-- One `fs::read_dir` entry. -/
structure DirEntry where
  name : String
  path : Path
  isFile : Bool
  modified : Nat
  size : Nat

/-- `fs::read_dir`: the direct file children followed by the direct directory
children; enumeration order is whatever order the state stores them in (the
OS guarantees none). -/
def FS.readDir (fs : FS) (d : Path) : List DirEntry :=
  (fs.fileList.filterMap fun pi =>
    (childName d pi.1).map fun n => ⟨n, pi.1, true, pi.2.modified, pi.2.size⟩)
  ++ (fs.dirList.filterMap fun p =>
    (childName d p).map fun n => ⟨n, p, false, 0, 0⟩)

/-- Components joined below home by `get_default_captures_dir` and by the
literal `"Library/Application Support/Grab/captures"` join in
`list_captures`. -/
def capturesRel : Path := ["Library", "Application Support", "Grab", "captures"]

/-- Components of the application-support directory that holds
`settings.json` and `clipboard_event.json`. -/
def grabRel : Path := ["Library", "Application Support", "Grab"]

def settingsFilePath (home : Path) : Path := home ++ grabRel ++ ["settings.json"]

def clipboardEventPath (home : Path) : Path := home ++ grabRel ++ ["clipboard_event.json"]

/-- `get_default_captures_dir`: resolves `~/Library/Application
Support/Grab/captures`, creating it when absent. -/
def get_default_captures_dir (fs : FS) : Except String Path × FS :=
  match fs.home with
  | none => (.error "Failed to get home directory", fs)
  | some h =>
    let captures_dir := h ++ capturesRel
    if fs.pathExists captures_dir then (.ok captures_dir, fs)
    else (.ok captures_dir, fs.mkDir captures_dir)

/-- `get_settings_file_path`: resolves `~/Library/Application Support/Grab`,
creating it when absent, and returns the `settings.json` path below it. -/
def get_settings_file_path (fs : FS) : Except String Path × FS :=
  match fs.home with
  | none => (.error "Failed to get home directory", fs)
  | some h =>
    let settings_dir := h ++ grabRel
    if fs.pathExists settings_dir then (.ok (settings_dir ++ ["settings.json"]), fs)
    else (.ok (settings_dir ++ ["settings.json"]), fs.mkDir settings_dir)

/-- `get_app_settings_internal`: when no settings file exists, creates and
persists a default record (both fields the default captures directory);
otherwise reads and parses the file, surfacing a parse failure as an
error. -/
def get_app_settings_internal (fs : FS) : Except String AppSettings × FS :=
  match get_settings_file_path fs with
  | (.error e, fs1) => (.error e, fs1)
  | (.ok settings_path, fs1) =>
    if fs1.pathExists settings_path then
      match fs1.getFile settings_path with
      | none => (.error "Failed to read settings file", fs1)
      | some fi =>
        match fi.content.bind parseAppSettings with
        | none => (.error "Failed to parse settings", fs1)
        | some s => (.ok s, fs1)
    else
      match get_default_captures_dir fs1 with
      | (.error e, fs2) => (.error e, fs2)
      | (.ok dp, fs2) =>
        let default_folder := pathToString dp
        let default_settings : AppSettings := ⟨default_folder, default_folder⟩
        (.ok default_settings, fs2.writeFile settings_path (some (settingsToJson default_settings)))

/-- `get_app_settings` command. -/
def get_app_settings (fs : FS) : Except String AppSettings × FS :=
  get_app_settings_internal fs

/-- `save_app_settings` command: creates the configured capture folder when
absent, then overwrites the settings file in full. -/
def save_app_settings (settings : AppSettings) (fs : FS) : Except String Unit × FS :=
  match get_settings_file_path fs with
  | (.error e, fs1) => (.error e, fs1)
  | (.ok settings_path, fs1) =>
    let capture_path := pathOfString settings.capture_folder
    let fs2 := if fs1.pathExists capture_path then fs1 else fs1.mkDir capture_path
    (.ok (), fs2.writeFile settings_path (some (settingsToJson settings)))

/-- `get_captures_dir` command (the Path Resolver): prefers the configured
`capture_folder` when it exists on disk, else the default directory; any
settings-load failure also falls back to the default. -/
def get_captures_dir (fs : FS) : Except String String × FS :=
  match get_app_settings_internal fs with
  | (.ok settings, fs1) =>
    if fs1.pathExists (pathOfString settings.capture_folder) then
      (.ok settings.capture_folder, fs1)
    else
      match get_default_captures_dir fs1 with
      | (.error e, fs2) => (.error e, fs2)
      | (.ok dp, fs2) => (.ok (pathToString dp), fs2)
  | (.error _, fs1) =>
    match get_default_captures_dir fs1 with
    | (.error e, fs2) => (.error e, fs2)
    | (.ok dp, fs2) => (.ok (pathToString dp), fs2)

/-- `str::to_lowercase` (ASCII; every extension literal compared against is
ASCII). -/
def asciiLower (s : String) : String := String.mk (s.data.map Char.toLower)

/-- The image test of `list_captures`: the lowercased name must end in one of
the six image extensions. -/
def is_image (name : String) : Bool :=
  strEndsWith (asciiLower name) ".png" ||
  strEndsWith (asciiLower name) ".jpg" ||
  strEndsWith (asciiLower name) ".jpeg" ||
  strEndsWith (asciiLower name) ".gif" ||
  strEndsWith (asciiLower name) ".bmp" ||
  strEndsWith (asciiLower name) ".webp"

/-- The text test of `list_captures`: `name.ends_with(".txt")`, on the
original (not lowercased) name. -/
def is_text (name : String) : Bool := strEndsWith name ".txt"

/-- `load_capture_metadata`: read the sidecar file and parse it as a
`CaptureMetadata`. -/
def load_capture_metadata (fs : FS) (json_path : Path) : Except String CaptureMetadata :=
  match fs.getFile json_path with
  | none => .error "Failed to read metadata file"
  | some fi =>
    match fi.content.bind parseCaptureMetadata with
    | none => .error "Failed to parse metadata"
    | some m => .ok m

/-- The loop body of `list_captures` for one directory entry: skip non-files
and unrecognized extensions; otherwise stat, check for the sidecar
`<name>.json`, attempt the metadata load (failure downgraded to `none`), and
build the entry. -/
def processEntry (fs : FS) (captures_path : Path) (e : DirEntry) : Option CaptureFile :=
  if e.isFile then
    if is_image e.name || is_text e.name then
      let json_path := captures_path ++ [e.name ++ ".json"]
      let has_metadata := fs.pathExists json_path
      let capture_metadata :=
        if has_metadata then
          match load_capture_metadata fs json_path with
          | .ok m => some m
          | .error _ => none
        else none
      some { name := e.name
             path := pathToString e.path
             modified := e.modified
             size := e.size
             capture_type := if is_image e.name then "image" else "text"
             has_metadata := has_metadata
             metadata := capture_metadata }
    else none
  else none

/-- The descending-by-`modified` comparison passed to the sort
(`b.modified.cmp(&a.modified)` as a `≤`-style relation). -/
def modGE (a b : CaptureFile) : Prop := b.modified ≤ a.modified

instance : DecidableRel modGE := fun a b => Nat.decLe b.modified a.modified

/-- `Vec::sort_by` with the comparator above.  `sort_by` is a stable sort,
and every stable sort by the same total preorder produces the same output
sequence, so it is modelled by a stable insertion sort. -/
def sortByModifiedDesc (l : List CaptureFile) : List CaptureFile :=
  l.insertionSort modGE

/-- `list_captures` command.  NOTE: the source hardcodes
`home/Library/Application Support/Grab/captures` here rather than calling
`get_captures_dir`. -/
def list_captures (fs : FS) : Except String (List CaptureFile) :=
  match fs.home with
  | none => .error "Could not find home directory"
  | some h =>
    let captures_path := h ++ capturesRel
    if fs.pathExists captures_path then
      if fs.isDir captures_path then
        let captures := (fs.readDir captures_path).filterMap (processEntry fs captures_path)
        .ok (sortByModifiedDesc captures)
      else .error "Failed to read captures directory"
    else .ok []

/-- `check_clipboard_event` command: `Ok(None)` when the event file is
absent; read and parse when present (the parse failure path leaves the file
in place); delete best-effort after a successful parse. -/
def check_clipboard_event (fs : FS) : Except String (Option Json) × FS :=
  match fs.home with
  | none => (.error "Failed to get home directory", fs)
  | some h =>
    let clipboard_event_file := clipboardEventPath h
    if fs.pathExists clipboard_event_file then
      match fs.getFile clipboard_event_file with
      | none => (.error "Failed to read clipboard event file", fs)
      | some fi =>
        match fi.content with
        | none => (.error "Failed to parse clipboard event JSON", fs)
        | some v =>
          let (_, fs1) := fs.removeFile clipboard_event_file
          (.ok (some v), fs1)
    else (.ok none, fs)

/-- `str::trim_start_matches` on character lists: repeatedly strip the
pattern from the front while it is a prefix.  Structural recursion on a fuel
counter (started at `s.length`, which bounds the number of possible strips,
since each strip of a non-empty prefix removes at least one character and a
non-empty pattern is never a prefix of the empty remainder). -/
def trimStartList (pat : List Char) : Nat → List Char → List Char
  | 0, s => s
  | fuel + 1, s =>
    if pat ≠ [] ∧ pat.isPrefixOf s then
      trimStartList pat fuel (s.drop pat.length)
    else s

/-- `str::trim_start_matches`. -/
def trimStartMatches (pat s : String) : String :=
  String.mk (trimStartList pat.data s.data.length s.data)

/-- `parse_command_line_args`, parametrized by the argument vector: return
the first `--capture-id=`-prefixed argument whose residue after
`trim_start_matches("--capture-id=")` is non-empty. -/
def parse_command_line_args (args : List String) : Option String :=
  args.findSome? fun arg =>
    if strStartsWith arg "--capture-id=" then
      let capture_id := trimStartMatches "--capture-id=" arg
      if capture_id ≠ "" then some capture_id else none
    else none

/- Helper lemmas about the model. -/

instance : IsTotal CaptureFile modGE :=
  ⟨fun a b => Nat.le_total b.modified a.modified⟩

instance : IsTrans CaptureFile modGE :=
  ⟨fun _ _ _ hab hbc => Nat.le_trans hbc hab⟩

theorem parseAppSettings_settingsToJson (s : AppSettings) :
    parseAppSettings (settingsToJson s) = some s := rfl

theorem remComps_append (d r : Path) : remComps d (d ++ r) = some r := by
  induction d with
  | nil => rfl
  | cons a d ih => simp [remComps, ih]

theorem childName_append (d : Path) (n : String) : childName d (d ++ [n]) = some n := by
  simp [childName, remComps_append]

theorem mem_readDir_of_file (fs : FS) (d : Path) (n : String) (fi : FileInfo)
    (hmem : (d ++ [n], fi) ∈ fs.fileList) :
    (⟨n, d ++ [n], true, fi.modified, fi.size⟩ : DirEntry) ∈ fs.readDir d := by
  unfold FS.readDir
  refine List.mem_append_left _ (List.mem_filterMap.mpr ⟨(d ++ [n], fi), hmem, ?_⟩)
  simp [childName_append]

theorem lookup_filter_ne (l : List (Path × FileInfo)) (p : Path) :
    (l.filter fun q => q.1 ≠ p).lookup p = none := by
  induction l with
  | nil => rfl
  | cons a l ih =>
    obtain ⟨k, v⟩ := a
    rw [List.filter_cons]
    rcases eq_or_ne k p with hp | hp
    · subst hp
      rw [if_neg (by simp)]
      exact ih
    · rw [if_pos (by simp [hp])]
      rw [List.lookup_cons, beq_eq_false_iff_ne.mpr (Ne.symm hp)]
      exact ih

/- The filesystem after `FS.mkDir` and `FS.writeFile`. -/

theorem getFile_mkDir (fs : FS) (d p : Path) : (fs.mkDir d).getFile p = fs.getFile p := rfl

theorem home_mkDir (fs : FS) (d : Path) : (fs.mkDir d).home = fs.home := rfl

theorem fileList_mkDir (fs : FS) (d : Path) : (fs.mkDir d).fileList = fs.fileList := rfl

theorem pathExists_mkDir_of (fs : FS) (d q : Path) (h : fs.pathExists q = true) :
    (fs.mkDir d).pathExists q = true := by
  simp only [FS.pathExists, FS.mkDir, FS.isDir, FS.isFile, FS.getFile, Bool.or_eq_true,
    List.contains_cons] at h ⊢
  tauto

theorem pathExists_mkDir_self (fs : FS) (d : Path) : (fs.mkDir d).pathExists d = true := by
  simp [FS.pathExists, FS.mkDir, FS.isDir]

/- `get_settings_file_path` and `get_default_captures_dir` when the directory
is already present (no state change) and when it is absent (a `mkDir`). -/

theorem gsfp_of_exists (fs : FS) (h : Path) (hh : fs.home = some h)
    (hex : fs.pathExists (h ++ grabRel) = true) :
    get_settings_file_path fs = (.ok (settingsFilePath h), fs) := by
  simp [get_settings_file_path, hh, hex, settingsFilePath]

theorem gsfp_of_missing (fs : FS) (h : Path) (hh : fs.home = some h)
    (hex : fs.pathExists (h ++ grabRel) = false) :
    get_settings_file_path fs = (.ok (settingsFilePath h), fs.mkDir (h ++ grabRel)) := by
  simp [get_settings_file_path, hh, hex, settingsFilePath]

theorem gdcd_of_exists (fs : FS) (h : Path) (hh : fs.home = some h)
    (hex : fs.pathExists (h ++ capturesRel) = true) :
    get_default_captures_dir fs = (.ok (h ++ capturesRel), fs) := by
  simp [get_default_captures_dir, hh, hex]

theorem gdcd_of_missing (fs : FS) (h : Path) (hh : fs.home = some h)
    (hex : fs.pathExists (h ++ capturesRel) = false) :
    get_default_captures_dir fs = (.ok (h ++ capturesRel), fs.mkDir (h ++ capturesRel)) := by
  simp [get_default_captures_dir, hh, hex]

/- Claim theorems. -/

/-- C8: for every state in which the capture directory does not exist,
`list_captures` returns an empty sequence and not an error. -/
theorem C8_missing_dir_yields_empty (fs : FS) (h : Path)
    (hh : fs.home = some h)
    (hne : fs.pathExists (h ++ capturesRel) = false) :
    list_captures fs = .ok [] := by
  simp [list_captures, hh, hne]

/-- Witness for C8 at a concrete state: home present, no directories or
files at all. -/
theorem C8_missing_dir_yields_empty_witness :
    list_captures ⟨some ["h"], [], []⟩ = .ok [] :=
  C8_missing_dir_yields_empty ⟨some ["h"], [], []⟩ ["h"] rfl rfl

/-- C4: every successful `list_captures` result is sorted by `modified`
descending: the list is `Sorted` for the `b.modified ≤ a.modified` relation,
hence for any two positions `i < j` the later entry's `modified` is at most
the earlier entry's. -/
theorem C4_list_sorted_desc (fs : FS) (out : List CaptureFile)
    (hout : list_captures fs = .ok out) :
    List.Sorted modGE out ∧
      ∀ i j : Fin out.length, (i : ℕ) < (j : ℕ) →
        (out.get j).modified ≤ (out.get i).modified := by
  have hs : List.Sorted modGE out := by
    unfold list_captures at hout
    cases hh : fs.home with
    | none => rw [hh] at hout; exact absurd hout (by simp)
    | some h =>
      rw [hh] at hout
      simp only at hout
      by_cases he : fs.pathExists (h ++ capturesRel)
      · rw [if_pos he] at hout
        by_cases hd : fs.isDir (h ++ capturesRel)
        · rw [if_pos hd] at hout
          obtain rfl : sortByModifiedDesc _ = out := by simpa using hout
          exact List.sorted_insertionSort modGE _
        · rw [if_neg hd] at hout
          exact absurd hout (by simp)
      · rw [if_neg he] at hout
        obtain rfl : ([] : List CaptureFile) = out := by simpa using hout
        simp
  exact ⟨hs, fun i j hij => hs.rel_get_of_lt hij⟩

/-- Concrete state for the C4 witness: the default captures directory holds
two images with distinct modification times, listed oldest-first on disk. -/
def fsC4 : FS :=
  ⟨some ["h"], [["h"] ++ capturesRel],
   [(["h"] ++ capturesRel ++ ["a.png"], ⟨100, 1, none⟩),
    (["h"] ++ capturesRel ++ ["b.png"], ⟨200, 2, none⟩)]⟩

def outC4 : List CaptureFile :=
  [⟨"b.png", "h/Library/Application Support/Grab/captures/b.png", 200, 2, "image", false, none⟩,
   ⟨"a.png", "h/Library/Application Support/Grab/captures/a.png", 100, 1, "image", false, none⟩]

/-- Witness for C4: the theorem applied to a concrete two-entry listing. -/
theorem C4_list_sorted_desc_witness :
    List.Sorted modGE outC4 ∧
      ∀ i j : Fin outC4.length, (i : ℕ) < (j : ℕ) →
        (outC4.get j).modified ≤ (outC4.get i).modified :=
  C4_list_sorted_desc fsC4 outC4 rfl

/-- C1: an artifact with a recognized extension whose co-located sidecar
`<name>.json` exists but does not parse as a metadata record is still listed,
with `has_metadata = true` and `metadata = none`, and `list_captures` does
not return an error. -/
theorem C1_invalid_sidecar_tolerated (fs : FS) (h : Path) (n : String) (fi si : FileInfo)
    (hh : fs.home = some h)
    (hdir : fs.isDir (h ++ capturesRel) = true)
    (hfile : (h ++ capturesRel ++ [n], fi) ∈ fs.fileList)
    (hext : (is_image n || is_text n) = true)
    (hsc : fs.getFile (h ++ capturesRel ++ [n ++ ".json"]) = some si)
    (hbad : si.content.bind parseCaptureMetadata = none) :
    ∃ out, list_captures fs = .ok out ∧
      ∃ c ∈ out, c.name = n ∧ c.has_metadata = true ∧ c.metadata = none := by
  have hex : fs.pathExists (h ++ capturesRel) = true := by
    simp [FS.pathExists, hdir]
  have hout : list_captures fs =
      .ok (sortByModifiedDesc ((fs.readDir (h ++ capturesRel)).filterMap
        (processEntry fs (h ++ capturesRel)))) := by
    simp [list_captures, hh, hex, hdir]
  refine ⟨_, hout, ?_⟩
  have he : (⟨n, h ++ capturesRel ++ [n], true, fi.modified, fi.size⟩ : DirEntry) ∈
      fs.readDir (h ++ capturesRel) :=
    mem_readDir_of_file fs (h ++ capturesRel) n fi hfile
  have hjex : fs.pathExists (h ++ capturesRel ++ [n ++ ".json"]) = true := by
    simp [FS.pathExists, FS.isFile, hsc, ← List.append_assoc]
  have hload : load_capture_metadata fs (h ++ capturesRel ++ [n ++ ".json"]) =
      .error "Failed to parse metadata" := by
    simp [load_capture_metadata, hsc, hbad, ← List.append_assoc]
  have hpe : processEntry fs (h ++ capturesRel)
        ⟨n, h ++ capturesRel ++ [n], true, fi.modified, fi.size⟩ =
      some ⟨n, pathToString (h ++ capturesRel ++ [n]), fi.modified, fi.size,
        (if is_image n then "image" else "text"), true, none⟩ := by
    simp [processEntry, hext, hjex, hload, ← List.append_assoc]
  refine ⟨⟨n, pathToString (h ++ capturesRel ++ [n]), fi.modified, fi.size,
    (if is_image n then "image" else "text"), true, none⟩, ?_, rfl, rfl, rfl⟩
  have hmem : (⟨n, pathToString (h ++ capturesRel ++ [n]), fi.modified, fi.size,
      (if is_image n then "image" else "text"), true, none⟩ : CaptureFile) ∈
      (fs.readDir (h ++ capturesRel)).filterMap (processEntry fs (h ++ capturesRel)) :=
    List.mem_filterMap.mpr ⟨_, he, hpe⟩
  simpa [sortByModifiedDesc, List.mem_insertionSort] using hmem

/-- Concrete state for the C1 witness: `shot.png` with a sidecar whose JSON
content (a bare string) is not a metadata record. -/
def fsC1 : FS :=
  ⟨some ["h"], [["h"] ++ capturesRel],
   [(["h"] ++ capturesRel ++ ["shot.png"], ⟨100, 2048, none⟩),
    (["h"] ++ capturesRel ++ ["shot.png.json"], ⟨5, 10, some (.str "oops")⟩)]⟩

/-- Witness for C1 at the concrete state. -/
theorem C1_invalid_sidecar_tolerated_witness :
    ∃ out, list_captures fsC1 = .ok out ∧
      ∃ c ∈ out, c.name = "shot.png" ∧ c.has_metadata = true ∧ c.metadata = none :=
  C1_invalid_sidecar_tolerated fsC1 ["h"] "shot.png" ⟨100, 2048, none⟩ ⟨5, 10, some (.str "oops")⟩
    rfl rfl (List.mem_cons_self _ _) rfl rfl rfl

/- Destructuring lemmas for `processEntry`. -/

theorem processEntry_eq_some (fs : FS) (cp : Path) (e : DirEntry) (c : CaptureFile)
    (h : processEntry fs cp e = some c) :
    e.isFile = true ∧ (is_image e.name || is_text e.name) = true ∧
      c.name = e.name ∧ c.capture_type = (if is_image e.name then "image" else "text") := by
  by_cases hf : e.isFile = true
  · by_cases hx : (is_image e.name || is_text e.name) = true
    · refine ⟨hf, hx, ?_⟩
      simp only [processEntry, hf, hx, if_true] at h
      obtain rfl : _ = c := Option.some.injEq _ _ ▸ h
      exact ⟨rfl, rfl⟩
    · exfalso
      simp [processEntry, hf, hx] at h
  · exfalso
    simp [processEntry, hf] at h

theorem processEntry_matched (fs : FS) (cp : Path) (e : DirEntry)
    (hf : e.isFile = true) (hx : (is_image e.name || is_text e.name) = true) :
    processEntry fs cp e =
      some ⟨e.name, pathToString e.path, e.modified, e.size,
        (if is_image e.name then "image" else "text"),
        fs.pathExists (cp ++ [e.name ++ ".json"]),
        if fs.pathExists (cp ++ [e.name ++ ".json"]) then
          (match load_capture_metadata fs (cp ++ [e.name ++ ".json"]) with
            | .ok m => some m
            | .error _ => none)
        else none⟩ := by
  simp [processEntry, hf, hx]

theorem processEntry_unmatched (fs : FS) (cp : Path) (e : DirEntry)
    (hno : (is_image e.name || is_text e.name) = false) :
    processEntry fs cp e = none := by
  by_cases hf : e.isFile = true
  · simp [processEntry, hf, hno]
  · simp [processEntry, hf]

theorem list_captures_eq_of_dir (fs : FS) (h : Path)
    (hh : fs.home = some h) (hdir : fs.isDir (h ++ capturesRel) = true) :
    list_captures fs =
      .ok (sortByModifiedDesc ((fs.readDir (h ++ capturesRel)).filterMap
        (processEntry fs (h ++ capturesRel)))) := by
  have hex : fs.pathExists (h ++ capturesRel) = true := by
    simp [FS.pathExists, hdir]
  simp [list_captures, hh, hex, hdir]

/-- Concrete state for C3: the captures directory holds exactly one file,
`note.TXT`, whose name ends in `txt` only up to ASCII case. -/
def fsC3 : FS :=
  ⟨some ["h"], [["h"] ++ capturesRel],
   [(["h"] ++ capturesRel ++ ["note.TXT"], ⟨10, 3, none⟩)]⟩

/-- Counterexample to C3 as stated: `note.TXT` ends in `txt` ignoring ASCII
case, sits in the captures directory, yet the listing is empty — the `.txt`
match is case-sensitive in the code, so the file is not included with
`capture_type = "text"`. -/
theorem C3_counterexample :
    strEndsWith (asciiLower "note.TXT") ".txt" = true ∧
    is_text "note.TXT" = false ∧
    list_captures fsC3 = .ok [] := ⟨rfl, rfl, rfl⟩

/-- C3 (amended): classification is by extension, with the image set
`{png, jpg, jpeg, gif, bmp, webp}` matched against the ASCII-lowercased name
(case-insensitive) and `txt` matched case-sensitively against the original
name; a file matching neither set never produces an entry (its `processEntry`
is `none`, so no sidecar is consulted and it is absent from the output), and
every listed entry carries the matching `capture_type`. -/
theorem C3_extension_classification :
    (∀ n : String, (is_image n = true ↔
      ∃ x ∈ ([".png", ".jpg", ".jpeg", ".gif", ".bmp", ".webp"] : List String),
        strEndsWith (asciiLower n) x = true)) ∧
    (∀ (fs : FS) (cp : Path) (e : DirEntry),
      (is_image e.name || is_text e.name) = false → processEntry fs cp e = none) ∧
    (∀ (fs : FS) (h : Path) (out : List CaptureFile),
      fs.home = some h → fs.isDir (h ++ capturesRel) = true →
      list_captures fs = .ok out →
      (∀ c ∈ out,
        (is_image c.name = true ∧ c.capture_type = "image") ∨
        (is_image c.name = false ∧ is_text c.name = true ∧ c.capture_type = "text")) ∧
      (∀ e ∈ fs.readDir (h ++ capturesRel), e.isFile = true →
        (is_image e.name || is_text e.name) = true → ∃ c ∈ out, c.name = e.name) ∧
      (∀ n : String, (is_image n || is_text n) = false → ∀ c ∈ out, c.name ≠ n)) := by
  refine ⟨?_, ?_, ?_⟩
  · intro n
    simp only [is_image, Bool.or_eq_true, List.mem_cons, List.not_mem_nil, or_false,
      exists_eq_or_imp, exists_eq_left]
    tauto
  · intro fs cp e hno
    exact processEntry_unmatched fs cp e hno
  · intro fs h out hh hdir hout
    rw [list_captures_eq_of_dir fs h hh hdir] at hout
    obtain rfl : sortByModifiedDesc ((fs.readDir (h ++ capturesRel)).filterMap
        (processEntry fs (h ++ capturesRel))) = out := by simpa using hout
    refine ⟨?_, ?_, ?_⟩
    · intro c hc
      have hc2 : c ∈ (fs.readDir (h ++ capturesRel)).filterMap
          (processEntry fs (h ++ capturesRel)) := by
        simpa [sortByModifiedDesc, List.mem_insertionSort] using hc
      obtain ⟨e, _, hpe⟩ := List.mem_filterMap.mp hc2
      obtain ⟨_, hx, hname, htype⟩ := processEntry_eq_some fs _ e c hpe
      by_cases hi : is_image e.name = true
      · exact Or.inl ⟨hname ▸ hi, by rw [htype, if_pos hi]⟩
      · have hib : is_image e.name = false := by
          cases hie : is_image e.name
          · rfl
          · exact absurd hie hi
        have ht : is_text e.name = true := by
          rcases Bool.or_eq_true_iff.mp hx with h1 | h1
          · exact absurd h1 hi
          · exact h1
        refine Or.inr ⟨hname ▸ hib, hname ▸ ht, ?_⟩
        rw [htype, if_neg (by simp [hib])]
    · intro e he hf hx
      refine ⟨⟨e.name, pathToString e.path, e.modified, e.size,
        (if is_image e.name then "image" else "text"),
        fs.pathExists ((h ++ capturesRel) ++ [e.name ++ ".json"]),
        if fs.pathExists ((h ++ capturesRel) ++ [e.name ++ ".json"]) then
          (match load_capture_metadata fs ((h ++ capturesRel) ++ [e.name ++ ".json"]) with
            | .ok m => some m
            | .error _ => none)
        else none⟩, ?_, rfl⟩
      have hpe := processEntry_matched fs (h ++ capturesRel) e hf hx
      have : _ ∈ (fs.readDir (h ++ capturesRel)).filterMap
          (processEntry fs (h ++ capturesRel)) := List.mem_filterMap.mpr ⟨e, he, hpe⟩
      simpa [sortByModifiedDesc, List.mem_insertionSort] using this
    · intro n hno c hc hcn
      have hc2 : c ∈ (fs.readDir (h ++ capturesRel)).filterMap
          (processEntry fs (h ++ capturesRel)) := by
        simpa [sortByModifiedDesc, List.mem_insertionSort] using hc
      obtain ⟨e, _, hpe⟩ := List.mem_filterMap.mp hc2
      obtain ⟨_, hx, hname, _⟩ := processEntry_eq_some fs _ e c hpe
      rw [hcn] at hname
      rw [← hname] at hx
      rw [hno] at hx
      exact Bool.false_ne_true hx

/-- Witness for the amended C3 at concrete inputs: `shot.PNG` is classified
as an image (case-insensitively); `note.TXT` matches neither set, produces no
entry, and is absent from the concrete listing of `fsC3`. -/
theorem C3_extension_classification_witness :
    (is_image "shot.PNG" = true ↔
      ∃ x ∈ ([".png", ".jpg", ".jpeg", ".gif", ".bmp", ".webp"] : List String),
        strEndsWith (asciiLower "shot.PNG") x = true) ∧
    processEntry fsC3 (["h"] ++ capturesRel)
      ⟨"note.TXT", ["h"] ++ capturesRel ++ ["note.TXT"], true, 10, 3⟩ = none ∧
    (∀ c ∈ ([] : List CaptureFile), c.name ≠ "note.TXT") := by
  refine ⟨C3_extension_classification.1 "shot.PNG",
    C3_extension_classification.2.1 fsC3 (["h"] ++ capturesRel) _ rfl, ?_⟩
  exact (C3_extension_classification.2.2 fsC3 ["h"] [] rfl rfl rfl).2.2 "note.TXT" rfl

/-- Concrete state for C2: the settings file configures `h/custom`, which
exists and holds `a.png`; the fixed default captures directory holds
`b.png`. -/
def fsC2 : FS :=
  ⟨some ["h"],
   [["h", "custom"], ["h"] ++ capturesRel, ["h"] ++ grabRel],
   [(settingsFilePath ["h"], ⟨0, 0, some (settingsToJson ⟨"h/custom", "h/custom"⟩)⟩),
    (["h", "custom", "a.png"], ⟨50, 1, none⟩),
    (["h"] ++ capturesRel ++ ["b.png"], ⟨60, 2, none⟩)]⟩

/-- C2 divergence, evaluated at the concrete state: the Path Resolver
(`get_captures_dir`) returns the configured existing folder `h/custom`, yet
`list_captures` scans the fixed default directory — its output is the default
directory's `b.png`, and the configured folder's `a.png` is absent. -/
theorem C2_list_ignores_resolver :
    (get_captures_dir fsC2).1 = .ok "h/custom" ∧
    list_captures fsC2 = .ok
      [⟨"b.png", "h/Library/Application Support/Grab/captures/b.png", 60, 2, "image",
        false, none⟩] :=
  ⟨rfl, rfl⟩

/- State-preservation lemmas for `FS.writeFile`. -/

theorem home_writeFile (fs : FS) (p : Path) (c : Option Json) :
    (fs.writeFile p c).home = fs.home := rfl

theorem getFile_writeFile_self (fs : FS) (p : Path) (c : Option Json) :
    (fs.writeFile p c).getFile p = some ⟨0, 0, c⟩ := by
  simp [FS.writeFile, FS.getFile]

theorem pathExists_writeFile_self (fs : FS) (p : Path) (c : Option Json) :
    (fs.writeFile p c).pathExists p = true := by
  simp [FS.pathExists, FS.isFile, getFile_writeFile_self]

theorem pathExists_writeFile_of (fs : FS) (p q : Path) (c : Option Json)
    (h : fs.pathExists q = true) :
    (fs.writeFile p c).pathExists q = true := by
  rcases eq_or_ne q p with rfl | hq
  · exact pathExists_writeFile_self fs q c
  · simp only [FS.pathExists, FS.writeFile, FS.isDir, FS.isFile, FS.getFile,
      Bool.or_eq_true] at h ⊢
    rcases h with h | h
    · exact Or.inl h
    · refine Or.inr ?_
      rw [List.lookup_cons, beq_eq_false_iff_ne.mpr hq]
      exact h

theorem getFile_mkDir_writeFile (fs : FS) (d p q : Path) (c : Option Json) :
    ((fs.mkDir d).writeFile p c).getFile q = (fs.writeFile p c).getFile q := rfl

/-- Reading the settings right after they were written at `settingsFilePath h`
yields the written record, for any base state whose home is `h`. -/
theorem get_after_write (fs : FS) (h : Path) (R : AppSettings)
    (hh : fs.home = some h) :
    (get_app_settings_internal (fs.writeFile (settingsFilePath h)
      (some (settingsToJson R)))).1 = .ok R := by
  have hgh : (fs.writeFile (settingsFilePath h) (some (settingsToJson R))).home = some h := hh
  by_cases hex : (fs.writeFile (settingsFilePath h)
      (some (settingsToJson R))).pathExists (h ++ grabRel) = true
  · rw [get_app_settings_internal, gsfp_of_exists _ h hgh hex]
    simp [pathExists_writeFile_self, getFile_writeFile_self, parseAppSettings_settingsToJson]
  · rw [get_app_settings_internal,
      gsfp_of_missing _ h hgh (Bool.not_eq_true _ ▸ hex)]
    have hex2 : ((fs.writeFile (settingsFilePath h) (some (settingsToJson R))).mkDir
        (h ++ grabRel)).pathExists (settingsFilePath h) = true := by
      apply pathExists_mkDir_of
      exact pathExists_writeFile_self fs _ _
    simp [hex2, getFile_mkDir, getFile_writeFile_self, parseAppSettings_settingsToJson]

/-- C6: a successful `save_app_settings R` followed by `get_app_settings`
returns a record equal to `R` field-for-field. -/
theorem C6_settings_roundtrip (fs fs2 : FS) (R : AppSettings)
    (hsave : save_app_settings R fs = (.ok (), fs2)) :
    (get_app_settings fs2).1 = .ok R := by
  obtain ⟨h, hh⟩ : ∃ h, fs.home = some h := by
    cases hhh : fs.home with
    | none =>
      exfalso
      simp [save_app_settings, get_settings_file_path, hhh] at hsave
    | some h => exact ⟨h, rfl⟩
  by_cases hex : fs.pathExists (h ++ grabRel) = true
  · rw [save_app_settings, gsfp_of_exists fs h hh hex] at hsave
    simp only [Prod.mk.injEq, true_and] at hsave
    obtain rfl := hsave
    by_cases hcap : fs.pathExists (pathOfString R.capture_folder) = true
    · rw [if_pos hcap]
      exact get_after_write fs h R hh
    · rw [if_neg hcap]
      exact get_after_write (fs.mkDir (pathOfString R.capture_folder)) h R hh
  · rw [save_app_settings, gsfp_of_missing fs h hh (Bool.not_eq_true _ ▸ hex)] at hsave
    simp only [Prod.mk.injEq, true_and] at hsave
    obtain rfl := hsave
    by_cases hcap : (fs.mkDir (h ++ grabRel)).pathExists (pathOfString R.capture_folder) = true
    · rw [if_pos hcap]
      exact get_after_write (fs.mkDir (h ++ grabRel)) h R hh
    · rw [if_neg hcap]
      exact get_after_write ((fs.mkDir (h ++ grabRel)).mkDir (pathOfString R.capture_folder)) h R hh

/-- Concrete state for the C6 witness. -/
def fsC6 : FS := ⟨some ["h"], [["h"] ++ grabRel], []⟩

/-- Witness for C6: saving a concrete record into a concrete state, then
reading it back. -/
theorem C6_settings_roundtrip_witness :
    (get_app_settings (save_app_settings ⟨"h/pics", "h/defpics"⟩ fsC6).2).1 =
      .ok ⟨"h/pics", "h/defpics"⟩ :=
  C6_settings_roundtrip fsC6 (save_app_settings ⟨"h/pics", "h/defpics"⟩ fsC6).2
    ⟨"h/pics", "h/defpics"⟩ rfl

/-- C5: when the settings file is present, the Path Resolver
(`get_captures_dir`) falls back to the default directory without touching the
persisted settings record, both when the configured `capture_folder` does not
exist on disk and when the settings content fails to parse; in the first case
a subsequent settings read still returns the original, now-stale, record. -/
theorem C5_fallback_preserves_settings (fs : FS) (h : Path) (fi : FileInfo)
    (hh : fs.home = some h)
    (hgrab : fs.pathExists (h ++ grabRel) = true)
    (hsf : fs.getFile (settingsFilePath h) = some fi) :
    (∀ R : AppSettings, fi.content.bind parseAppSettings = some R →
      fs.pathExists (pathOfString R.capture_folder) = false →
      (get_captures_dir fs).1 = .ok (pathToString (h ++ capturesRel)) ∧
      ((get_captures_dir fs).2).getFile (settingsFilePath h) = some fi ∧
      (get_app_settings_internal (get_captures_dir fs).2).1 = .ok R) ∧
    (fi.content.bind parseAppSettings = none →
      (get_captures_dir fs).1 = .ok (pathToString (h ++ capturesRel)) ∧
      ((get_captures_dir fs).2).getFile (settingsFilePath h) = some fi) := by
  have hspex : fs.pathExists (settingsFilePath h) = true := by
    simp [FS.pathExists, FS.isFile, hsf]
  constructor
  · intro R hR hmiss
    have hint : get_app_settings_internal fs = (.ok R, fs) := by
      rw [get_app_settings_internal, gsfp_of_exists fs h hh hgrab]
      simp [hspex, hsf, hR]
    by_cases hcap : fs.pathExists (h ++ capturesRel) = true
    · have hgc : get_captures_dir fs = (.ok (pathToString (h ++ capturesRel)), fs) := by
        rw [get_captures_dir, hint]
        simp [hmiss, gdcd_of_exists fs h hh hcap]
      rw [hgc]
      exact ⟨rfl, hsf, by rw [hint]⟩
    · have hgc : get_captures_dir fs =
          (.ok (pathToString (h ++ capturesRel)), fs.mkDir (h ++ capturesRel)) := by
        rw [get_captures_dir, hint]
        simp [hmiss, gdcd_of_missing fs h hh (Bool.not_eq_true _ ▸ hcap)]
      have hgrab2 : (fs.mkDir (h ++ capturesRel)).pathExists (h ++ grabRel) = true :=
        pathExists_mkDir_of fs _ _ hgrab
      have hspex2 : (fs.mkDir (h ++ capturesRel)).pathExists (settingsFilePath h) = true :=
        pathExists_mkDir_of fs _ _ hspex
      have hh2 : (fs.mkDir (h ++ capturesRel)).home = some h := hh
      have hread : (get_app_settings_internal (fs.mkDir (h ++ capturesRel))).1 = .ok R := by
        rw [get_app_settings_internal, gsfp_of_exists _ h hh2 hgrab2]
        simp [hspex2, getFile_mkDir, hsf, hR]
      exact ⟨by rw [hgc], by rw [hgc]; exact hsf, by rw [hgc]; exact hread⟩
  · intro hR
    have hint : get_app_settings_internal fs = (.error "Failed to parse settings", fs) := by
      rw [get_app_settings_internal, gsfp_of_exists fs h hh hgrab]
      simp [hspex, hsf, hR]
    by_cases hcap : fs.pathExists (h ++ capturesRel) = true
    · have hgc : get_captures_dir fs = (.ok (pathToString (h ++ capturesRel)), fs) := by
        rw [get_captures_dir, hint]
        simp [gdcd_of_exists fs h hh hcap]
      rw [hgc]
      exact ⟨rfl, hsf⟩
    · have hgc : get_captures_dir fs =
          (.ok (pathToString (h ++ capturesRel)), fs.mkDir (h ++ capturesRel)) := by
        rw [get_captures_dir, hint]
        simp [gdcd_of_missing fs h hh (Bool.not_eq_true _ ▸ hcap)]
      rw [hgc]
      exact ⟨rfl, hsf⟩

/-- Settings file content for the C5 witness: the configured folder `h/gone`
does not exist. -/
def fiC5 : FileInfo := ⟨0, 0, some (settingsToJson ⟨"h/gone", "h/cap"⟩)⟩

/-- Concrete state for the C5 witness. -/
def fsC5 : FS :=
  ⟨some ["h"], [["h"] ++ grabRel, ["h"] ++ capturesRel], [(settingsFilePath ["h"], fiC5)]⟩

/-- Witness for C5 at the concrete state. -/
theorem C5_fallback_preserves_settings_witness :
    (∀ R : AppSettings, fiC5.content.bind parseAppSettings = some R →
      fsC5.pathExists (pathOfString R.capture_folder) = false →
      (get_captures_dir fsC5).1 = .ok (pathToString (["h"] ++ capturesRel)) ∧
      ((get_captures_dir fsC5).2).getFile (settingsFilePath ["h"]) = some fiC5 ∧
      (get_app_settings_internal (get_captures_dir fsC5).2).1 = .ok R) ∧
    (fiC5.content.bind parseAppSettings = none →
      (get_captures_dir fsC5).1 = .ok (pathToString (["h"] ++ capturesRel)) ∧
      ((get_captures_dir fsC5).2).getFile (settingsFilePath ["h"]) = some fiC5) :=
  C5_fallback_preserves_settings fsC5 ["h"] fiC5 rfl rfl rfl

/-- C7: polling the clipboard event file when it holds parseable JSON returns
the payload and deletes the file, so an immediately repeated poll returns
`Ok(None)`; and polling when the file is absent returns `Ok(None)`, not an
error. -/
theorem C7_poll_consumes_event (fs : FS) (h : Path) (fi : FileInfo) (v : Json)
    (hh : fs.home = some h)
    (hnd : fs.isDir (clipboardEventPath h) = false)
    (hfile : fs.getFile (clipboardEventPath h) = some fi)
    (hv : fi.content = some v) :
    (check_clipboard_event fs).1 = .ok (some v) ∧
    (check_clipboard_event (check_clipboard_event fs).2).1 = .ok none ∧
    (∀ (gs : FS) (g : Path), gs.home = some g →
      gs.pathExists (clipboardEventPath g) = false →
      check_clipboard_event gs = (.ok none, gs)) := by
  have hex : fs.pathExists (clipboardEventPath h) = true := by
    simp [FS.pathExists, FS.isFile, hfile]
  have hisf : fs.isFile (clipboardEventPath h) = true := by
    simp [FS.isFile, hfile]
  have hstep : check_clipboard_event fs =
      (.ok (some v), ⟨fs.home, fs.dirList,
        fs.fileList.filter (fun q => q.1 ≠ clipboardEventPath h)⟩) := by
    simp [check_clipboard_event, hh, hex, hfile, hv, FS.removeFile, hisf]
  have habs : ∀ (gs : FS) (g : Path), gs.home = some g →
      gs.pathExists (clipboardEventPath g) = false →
      check_clipboard_event gs = (.ok none, gs) := by
    intro gs g hg hgex
    simp [check_clipboard_event, hg, hgex]
  have hex2 : (⟨fs.home, fs.dirList,
      fs.fileList.filter (fun q => q.1 ≠ clipboardEventPath h)⟩ : FS).pathExists
        (clipboardEventPath h) = false := by
    simp only [FS.pathExists, FS.isDir, FS.isFile, FS.getFile]
    rw [lookup_filter_ne]
    simpa [FS.isDir] using hnd
  refine ⟨by rw [hstep], ?_, habs⟩
  rw [hstep]
  exact congrArg Prod.fst
    (habs ⟨fs.home, fs.dirList,
      fs.fileList.filter (fun q => q.1 ≠ clipboardEventPath h)⟩ h hh hex2)

/-- Concrete state for the C7 witness: one pending event whose payload is the
JSON number 5. -/
def fsC7 : FS :=
  ⟨some ["h"], [["h"] ++ grabRel], [(clipboardEventPath ["h"], ⟨0, 0, some (.num 5)⟩)]⟩

/-- Witness for C7 at the concrete state. -/
theorem C7_poll_consumes_event_witness :
    (check_clipboard_event fsC7).1 = .ok (some (.num 5)) ∧
    (check_clipboard_event (check_clipboard_event fsC7).2).1 = .ok none ∧
    (∀ (gs : FS) (g : Path), gs.home = some g →
      gs.pathExists (clipboardEventPath g) = false →
      check_clipboard_event gs = (.ok none, gs)) :=
  C7_poll_consumes_event fsC7 ["h"] ⟨0, 0, some (.num 5)⟩ (.num 5) rfl rfl rfl rfl

/-- C10: when the clipboard event file exists but its content does not parse
as JSON, `check_clipboard_event` returns an error and leaves the state — in
particular the event file — untouched, so a later poll sees the same
payload. -/
theorem C10_parse_failure_keeps_event (fs : FS) (h : Path) (fi : FileInfo)
    (hh : fs.home = some h)
    (hfile : fs.getFile (clipboardEventPath h) = some fi)
    (hbad : fi.content = none) :
    check_clipboard_event fs = (.error "Failed to parse clipboard event JSON", fs) ∧
    (check_clipboard_event fs).2.getFile (clipboardEventPath h) = some fi := by
  have hex : fs.pathExists (clipboardEventPath h) = true := by
    simp [FS.pathExists, FS.isFile, hfile]
  have hstep : check_clipboard_event fs =
      (.error "Failed to parse clipboard event JSON", fs) := by
    simp [check_clipboard_event, hh, hex, hfile, hbad]
  exact ⟨hstep, by rw [hstep]; exact hfile⟩

/-- Concrete state for the C10 witness: the event file holds bytes that are
not valid JSON. -/
def fsC10 : FS :=
  ⟨some ["h"], [["h"] ++ grabRel], [(clipboardEventPath ["h"], ⟨0, 0, none⟩)]⟩

/-- Witness for C10 at the concrete state. -/
theorem C10_parse_failure_keeps_event_witness :
    check_clipboard_event fsC10 = (.error "Failed to parse clipboard event JSON", fsC10) ∧
    (check_clipboard_event fsC10).2.getFile (clipboardEventPath ["h"]) =
      some ⟨0, 0, none⟩ :=
  C10_parse_failure_keeps_event fsC10 ["h"] ⟨0, 0, none⟩ rfl rfl rfl

/- Lemmas about `trimStartList` / `parse_command_line_args`. -/

theorem trimStartList_noStrip (pat : List Char) (fuel : Nat) (s : List Char)
    (h : pat.isPrefixOf s = false) : trimStartList pat fuel s = s := by
  cases fuel with
  | zero => rfl
  | succ n => simp [trimStartList, h]

theorem trimStartList_step (pat : List Char) (n : Nat) (s : List Char)
    (hp : pat ≠ []) (h : pat.isPrefixOf s = true) :
    trimStartList pat (n + 1) s = trimStartList pat n (s.drop pat.length) := by
  simp [trimStartList, hp, h]

theorem trimStartList_once (pat s : List Char) (hp : pat ≠ [])
    (h1 : pat.isPrefixOf s = true)
    (h2 : pat.isPrefixOf (s.drop pat.length) = false) :
    trimStartList pat s.length s = s.drop pat.length := by
  have hs : s ≠ [] := by
    intro hnil
    subst hnil
    cases pat with
    | nil => exact hp rfl
    | cons a l => simp [List.isPrefixOf] at h1
  obtain ⟨n, hn⟩ : ∃ n, s.length = n + 1 := by
    cases s with
    | nil => exact absurd rfl hs
    | cons a l => exact ⟨l.length, rfl⟩
  rw [hn, trimStartList_step pat n s hp h1, trimStartList_noStrip pat n _ h2]

/-- The claim's reading of the flag value (refinement reference, following the
claim's words): the value of a `--capture-id=<value>` argument is everything
after the flag prefix. -/
def claimFlagValue (arg : String) : String :=
  String.mk (arg.data.drop ("--capture-id=".data.length))

/-- The claim's extraction (refinement reference, following the claim's
words): the value of the first `--capture-id=<value>` argument whose value is
non-empty, else none. -/
def claimExtract (args : List String) : Option String :=
  args.findSome? fun arg =>
    if strStartsWith arg "--capture-id=" then
      if claimFlagValue arg ≠ "" then some (claimFlagValue arg) else none
    else none

theorem trimStartMatches_once (arg : String)
    (h1 : strStartsWith arg "--capture-id=" = true)
    (h2 : strStartsWith (claimFlagValue arg) "--capture-id=" = false) :
    trimStartMatches "--capture-id=" arg = claimFlagValue arg := by
  unfold trimStartMatches claimFlagValue
  congr 1
  exact trimStartList_once _ _ (by decide) h1 h2

theorem findSome?_congr {α β : Type} (f g : α → Option β) (l : List α)
    (h : ∀ a ∈ l, f a = g a) : l.findSome? f = l.findSome? g := by
  induction l with
  | nil => rfl
  | cons a l ih =>
    rw [List.findSome?_cons, List.findSome?_cons, h a (by simp)]
    cases g a with
    | some b => rfl
    | none => exact ih fun x hx => h x (by simp [hx])

theorem exists_of_findSome? {α β : Type} {f : α → Option β} :
    ∀ {l : List α} {b : β}, l.findSome? f = some b → ∃ a ∈ l, f a = some b := by
  intro l
  induction l with
  | nil => intro b h; exact absurd h (by simp)
  | cons a l ih =>
    intro b h
    rw [List.findSome?_cons] at h
    cases hfa : f a with
    | some c =>
      simp only [hfa] at h
      exact ⟨a, by simp, by rw [hfa, h]⟩
    | none =>
      simp only [hfa] at h
      obtain ⟨x, hx, hfx⟩ := ih h
      exact ⟨x, by simp [hx], hfx⟩

/-- Concrete state for the C9 counterexample: a flag value which itself
begins with the flag prefix.  The claim predicts the value
`"--capture-id=x"` (non-empty text after the flag); the code's
`trim_start_matches` strips the prefix repeatedly and returns `"x"`.  For a
value consisting of exactly one further copy of the prefix the claim
predicts `"--capture-id="`, but the code strips it to empty and returns
none. -/
theorem C9_counterexample :
    parse_command_line_args ["--capture-id=--capture-id=x"] = some "x" ∧
    "x" ≠ "--capture-id=x" ∧
    parse_command_line_args ["--capture-id=--capture-id="] = none := by
  refine ⟨rfl, by decide, rfl⟩

/-- C9 (amended): the extraction scans the arguments in order for the first
`--capture-id=`-prefixed argument whose residue after removing every leading
repetition of `--capture-id=` is non-empty, and returns that residue; if no
argument carries the flag, or every flagged argument's residue is empty, it
returns none.  Whenever no flagged argument's value itself begins with
`--capture-id=`, this coincides with the original claim: the first flagged
argument with a non-empty value wins and its value is returned. -/
theorem C9_first_nonempty_flag_wins :
    (∀ args : List String,
      (∀ arg ∈ args, strStartsWith arg "--capture-id=" = false) →
      parse_command_line_args args = none) ∧
    (∀ (args : List String) (v : String),
      parse_command_line_args args = some v → v ≠ "") ∧
    (∀ args : List String,
      (∀ arg ∈ args, strStartsWith arg "--capture-id=" = true →
        strStartsWith (claimFlagValue arg) "--capture-id=" = false) →
      parse_command_line_args args = claimExtract args) := by
  refine ⟨?_, ?_, ?_⟩
  · intro args h
    induction args with
    | nil => rfl
    | cons a l ih =>
      unfold parse_command_line_args
      rw [List.findSome?_cons, h a (by simp)]
      simp only [Bool.false_eq_true, if_false]
      exact ih fun x hx => h x (by simp [hx])
  · intro args v hv
    obtain ⟨arg, _, hfa⟩ := exists_of_findSome? hv
    by_cases hs : strStartsWith arg "--capture-id=" = true
    · rw [if_pos hs] at hfa
      by_cases hne : trimStartMatches "--capture-id=" arg = ""
      · simp only [ne_eq, hne, not_true_eq_false, if_false] at hfa
        exact absurd hfa (by simp)
      · simp only [ne_eq, hne, not_false_eq_true, if_true, Option.some.injEq] at hfa
        rw [← hfa]
        exact hne
    · rw [if_neg hs] at hfa
      exact absurd hfa (by simp)
  · intro args h
    unfold parse_command_line_args claimExtract
    apply findSome?_congr
    intro arg hm
    by_cases hs : strStartsWith arg "--capture-id=" = true
    · rw [if_pos hs, if_pos hs, trimStartMatches_once arg hs (h arg hm hs)]
    · rw [if_neg hs, if_neg hs]

/-- Witness for the amended C9 at concrete argument vectors. -/
theorem C9_first_nonempty_flag_wins_witness :
    parse_command_line_args ["--other", "abc"] = none ∧
    "abc" ≠ "" ∧
    parse_command_line_args ["--verbose", "--capture-id=", "--capture-id=abc"] =
      claimExtract ["--verbose", "--capture-id=", "--capture-id=abc"] := by
  refine ⟨C9_first_nonempty_flag_wins.1 ["--other", "abc"] (by decide),
    C9_first_nonempty_flag_wins.2.1 ["--capture-id=abc"] "abc" rfl,
    C9_first_nonempty_flag_wins.2.2 ["--verbose", "--capture-id=", "--capture-id=abc"]
      (by decide)⟩

end Grab
